import Mathlib

/-!
Shallow embedding of the GitHub scraping pipeline of `src/data.py`
(repository agaMadan/TDS-Project-1), together with theorems settling the
specification claims about it.

The embedding models decoded JSON bodies as association-list records, the
pandas DataFrame operations actually used by the script as a small `Frame`
model (column list plus record rows, with `KeyError` on missing columns),
and each scraper function control-flow-faithfully from the Python source.
The remote service is an explicit oracle (`World`) giving the response of
every endpoint, so the pure functions below compute exactly what one run of
the script computes against that oracle.
-/

set_option maxRecDepth 4000

namespace TDS

instance instDecEqExcept {ε α : Type} [DecidableEq ε] [DecidableEq α] :
    DecidableEq (Except ε α) := fun a b =>
  match a, b with
  | .ok x, .ok y =>
    if h : x = y then isTrue (by rw [h])
    else isFalse (by intro hc; cases hc; exact h rfl)
  | .error x, .error y =>
    if h : x = y then isTrue (by rw [h])
    else isFalse (by intro hc; cases hc; exact h rfl)
  | .ok _, .error _ => isFalse (by intro hc; cases hc)
  | .error _, .ok _ => isFalse (by intro hc; cases hc)

/-- Python `str.upper()` on the character list (the company strings in play
are ASCII, where `Char.toUpper` agrees with Python). -/
def pyUpper (s : String) : String := ⟨s.data.map Char.toUpper⟩

/-- Python `str.strip()`: drop whitespace from both ends. -/
def pyStrip (s : String) : String :=
  ⟨((s.data.dropWhile Char.isWhitespace).reverse.dropWhile Char.isWhitespace).reverse⟩

/-- Python `s.startswith('@')`. -/
def pyAtStart (s : String) : Bool :=
  match s.data with
  | [] => false
  | c :: _ => c = '@'

/-- Python `s[1:]`. -/
def pyDropFirst (s : String) : String := ⟨s.data.drop 1⟩

/-- JSON-like cell values.  A nested object occurs in this pipeline only as
the `license` object of a repository record, whose fields are strings. -/
inductive Val where
  | vnull
  | vstr (s : String)
  | vnat (n : Nat)
  | vbool (b : Bool)
  | vobj (fields : List (String × String))
deriving DecidableEq, Repr

/-- A decoded JSON object: an association list of fields (a Python dict). -/
abbrev Record := List (String × Val)

/-- Python dict access `r[k]` (first binding wins; decoded JSON objects have
unique keys). -/
def rlookup (k : String) : Record → Option Val
  | [] => none
  | p :: r => if p.1 = k then some p.2 else rlookup k r

/-- Python dict assignment `r[k] = v`: replace the binding in place if the
key exists, otherwise append it. -/
def setField (r : Record) (k : String) (v : Val) : Record :=
  if (rlookup k r).isSome then
    r.map (fun p => if p.1 = k then (k, v) else p)
  else
    r ++ [(k, v)]

/-- The pandas DataFrame, restricted to what `src/data.py` uses: an ordered
column list and a list of record rows. -/
structure Frame where
  cols : List String
  rows : List Record
deriving DecidableEq, Repr

/-- `pd.DataFrame()`: empty frame, no columns. -/
def emptyFrame : Frame := ⟨[], []⟩

/-- Column set of `pd.DataFrame(records)`: union of the records' keys in
order of first appearance.  In particular `pd.DataFrame([])` has no
columns. -/
def keyUnion (records : List Record) : List String :=
  records.foldl (fun acc r => acc ++ ((r.map Prod.fst).filter (fun k => k ∉ acc))) []

/-- `pd.DataFrame(records)` for a list of decoded JSON objects. -/
def mkFrame (records : List Record) : Frame := ⟨keyUnion records, records⟩

/-- `df[c]` as a column read: `KeyError` when the column is absent; a row
missing the key yields a null cell (pandas NaN). -/
def getCol (f : Frame) (c : String) : Except String (List Val) :=
  if c ∈ f.cols then
    .ok (f.rows.map (fun r => (rlookup c r).getD Val.vnull))
  else
    .error ("KeyError: " ++ c)

def addColName (cols : List String) (c : String) : List String :=
  if c ∈ cols then cols else cols ++ [c]

/-- `df[c] = scalar`: assign a constant column. -/
def setColConst (f : Frame) (c : String) (v : Val) : Frame :=
  ⟨addColName f.cols c, f.rows.map (fun r => setField r c v)⟩

/-- `df[c] = series`: assign a column from a value list (same length as the
rows in every use below). -/
def setColVals (f : Frame) (c : String) (vals : List Val) : Frame :=
  ⟨addColName f.cols c, List.zipWith (fun r v => setField r c v) f.rows vals⟩

/-- `df[columns]`: column projection, `KeyError` when a requested column is
absent. -/
def selectCols (f : Frame) (cs : List String) : Except String Frame :=
  if cs.all (fun c => c ∈ f.cols) then
    .ok ⟨cs, f.rows.map (fun r => cs.map (fun c => (c, (rlookup c r).getD Val.vnull)))⟩
  else
    .error "KeyError: columns"

/-- `pd.concat(frames, ignore_index=True)` when the list is nonempty,
`pd.DataFrame()` otherwise (the `if all_repos_data else` expression of
`main`). -/
def concatFrames (fs : List Frame) : Frame :=
  if fs = [] then emptyFrame
  else ⟨fs.foldl (fun acc f => acc ++ (f.cols.filter (fun c => c ∉ acc))) [],
        (fs.map Frame.rows).flatten⟩

/-- `GitHubScraper.clean_company_name` (src/data.py lines 117-125).  The
argument is `none` for a JSON null.  `if not company` is Python falsiness:
absent or empty input returns `""` before any transformation. -/
def clean_company_name (company : Option String) : String :=
  match company with
  | none => ""
  | some s =>
    if s = "" then ""
    else
      let t := pyStrip s
      let t' := if pyAtStart t then pyDropFirst t else t
      pyUpper t'

/-- Spec-side companion of `clean_company_name`, following the words of the
spec sentence: "trim whitespace; if first character is `@`, drop it;
uppercase the remainder". -/
def dropLeadingAt (t : String) : String :=
  if pyAtStart t then pyDropFirst t else t

/-- The lambda applied to the `license` column in `create_repos_dataframe`:
`x['key'] if isinstance(x, dict) and 'key' in x else None`. -/
def licenseKey : Val → Val
  | .vobj fields =>
    match fields.lookup "key" with
    | some k => .vstr k
    | none => .vnull
  | _ => .vnull

/-- `clean_company_name` applied to a cell of the `company` column.
Python falsy cells (null, `False`, `0`, `""`) hit the early return and give
`""`; a truthy non-string cell would raise `AttributeError` on `.strip()`. -/
def cleanCompanyVal : Val → Except String Val
  | .vstr s => .ok (.vstr (clean_company_name (some s)))
  | .vnull => .ok (.vstr "")
  | .vbool false => .ok (.vstr "")
  | .vnat 0 => .ok (.vstr "")
  | _ => .error "AttributeError: strip"

/-- Column list of `create_repos_dataframe` (src/data.py lines 149-152). -/
def repoColumns : List String :=
  ["login", "full_name", "created_at", "stargazers_count",
   "watchers_count", "language", "has_projects", "has_wiki", "license_name"]

/-- Column list of `create_users_dataframe` (src/data.py lines 130-133). -/
def userColumns : List String :=
  ["login", "name", "company", "location", "email", "hireable",
   "bio", "public_repos", "followers", "following", "created_at"]

/-- `GitHubScraper.create_repos_dataframe` (src/data.py lines 138-154). -/
def create_repos_dataframe (reposData : List Record) (username : String) :
    Except String Frame :=
  if reposData = [] then .ok emptyFrame
  else do
    let df := mkFrame reposData
    let df := setColConst df "login" (.vstr username)
    let lic ← getCol df "license"
    let df := setColVals df "license_name" (lic.map licenseKey)
    selectCols df repoColumns

/-- `GitHubScraper.create_users_dataframe` (src/data.py lines 127-136). -/
def create_users_dataframe (usersData : List Record) : Except String Frame := do
  let df := mkFrame usersData
  let comp ← getCol df "company"
  let cleaned ← comp.mapM cleanCompanyVal
  let df := setColVals df "company" cleaned
  selectCols df userColumns

/-- Response of the user-detail endpoint: an HTTP status and the decoded
body (used only when the status is 200). -/
structure DetailResp where
  status : Nat
  body : Record
deriving DecidableEq, Repr

/-- Response of one page of the user-repositories endpoint. -/
structure RepoResp where
  status : Nat
  data : List Record
deriving DecidableEq, Repr

/-- Response of one page of the user-search endpoint (`data['items']`). -/
structure SearchResp where
  status : Nat
  items : List Record
deriving DecidableEq, Repr

/-- The remote service, as a deterministic oracle: what each endpoint
returns for each argument during the run. -/
structure World where
  detail : String → DetailResp
  repoPage : String → Nat → RepoResp

/-- `GitHubScraper.get_user_details` (src/data.py lines 58-69): `none` on a
non-200 status, otherwise the decoded body. -/
def get_user_details (w : World) (username : String) : Option Record :=
  let resp := w.detail username
  if resp.status ≠ 200 then none else some resp.body

/-- The `while len(repos) < max_repos` loop of `get_user_repos`
(src/data.py lines 76-100), returning the collected items and the number of
pages fetched.  `fuel` bounds the iterations; every continuing iteration
appends a full page of at least 100 items, so the `maxRepos + 1` fuel
supplied by `get_user_reposPair` is never exhausted. -/
def reposLoop (fetch : Nat → RepoResp) (maxRepos : Nat) :
    Nat → Nat → List Record → Nat → List Record × Nat
  | 0, _, acc, calls => (acc, calls)
  | fuel + 1, page, acc, calls =>
    if acc.length < maxRepos then
      let resp := fetch page
      if resp.status ≠ 200 then (acc, calls + 1)
      else if resp.data = [] then (acc, calls + 1)
      else if resp.data.length < 100 then (acc ++ resp.data, calls + 1)
      else reposLoop fetch maxRepos fuel (page + 1) (acc ++ resp.data) (calls + 1)
    else (acc, calls)

/-- `GitHubScraper.get_user_repos` (src/data.py lines 71-102) with the page
count instrumented: the returned list is `repos[:max_repos]`. -/
def get_user_reposPair (fetch : Nat → RepoResp) (maxRepos : Nat) :
    List Record × Nat :=
  let p := reposLoop fetch maxRepos (maxRepos + 1) 1 [] 0
  (p.1.take maxRepos, p.2)

/-- `GitHubScraper.get_user_repos`: the list the Python function returns. -/
def get_user_repos (fetch : Nat → RepoResp) (maxRepos : Nat) : List Record :=
  (get_user_reposPair fetch maxRepos).1

/-- The search query string of `get_berlin_users` (src/data.py line 39):
`f'location:Berlin followers:>={min_followers}'`. -/
def searchQuery (minFollowers : Nat) : String :=
  "location:Berlin followers:>=" ++ toString minFollowers

/-- The `per_page` parameter of the search request (src/data.py line 41). -/
def searchPerPage : Nat := 100

/-- The `while True` loop of `get_berlin_users` (src/data.py lines 34-54).
The search oracle takes the query string, page number and page size.  The
source loop has no bound of its own (it exits only on a non-200 status or
an empty page), so `fuel` bounds the pages examined. -/
def berlinLoop (fetch : String → Nat → Nat → SearchResp) (q : String) :
    Nat → Nat → List Record → List Record
  | 0, _, acc => acc
  | fuel + 1, page, acc =>
    let resp := fetch q page searchPerPage
    if resp.status ≠ 200 then acc
    else if resp.items = [] then acc
    else berlinLoop fetch q fuel (page + 1) (acc ++ resp.items)

/-- `GitHubScraper.get_berlin_users` (src/data.py lines 29-56). -/
def get_berlin_users (fetch : String → Nat → Nat → SearchResp)
    (minFollowers : Nat) (fuel : Nat) : List Record :=
  berlinLoop fetch (searchQuery minFollowers) fuel 1 []

/-- Python falsiness of `user_details` in `process_user`: `None` and the
empty dict are both falsy. -/
def pyFalsyDetail : Option Record → Bool
  | none => true
  | some r => r.isEmpty

/-- `GitHubScraper.process_user` (src/data.py lines 104-115), instrumented
with the number of repository-page API calls it makes.  The `Except` layer
carries an exception escaping the function (pandas `KeyError` inside
`create_repos_dataframe`). -/
def process_user (w : World) (username : String) :
    Except String (Option Record × Option Frame) × Nat :=
  let ud := get_user_details w username
  if pyFalsyDetail ud then (.ok (none, none), 0)
  else
    let p := get_user_reposPair (w.repoPage username) 500
    let reposDf :=
      if p.1 ≠ [] then create_repos_dataframe p.1 username else .ok emptyFrame
    match reposDf with
    | .error e => (.error e, p.2)
    | .ok df => (.ok (ud, some df), p.2)

/-- One iteration of the result-collection loop of `main` (src/data.py
lines 176-188).  A per-user exception is caught and skips the rest of the
iteration; for a failed user the `repos_df.empty` access on `None` raises
`AttributeError` after the profile check, so neither list is extended. -/
def stepUser (w : World) (acc : List Record × List Frame) (username : String) :
    List Record × List Frame :=
  match (process_user w username).1 with
  | .error _ => acc
  | .ok (ud, rdf) =>
    let users :=
      match ud with
      | some d => if d.isEmpty then acc.1 else acc.1 ++ [d]
      | none => acc.1
    match rdf with
    | some f => (users, if f.rows ≠ [] then acc.2 ++ [f] else acc.2)
    | none => (users, acc.2)

/-- The fan-out over stubs in `main` (src/data.py lines 169-188): every
stub is processed exactly once; the completion order is immaterial to the
accumulated lists up to permutation, and the claims below are stated so the
order does not matter. -/
def mainLoop (w : World) (stubs : List String) : List Record × List Frame :=
  stubs.foldl (stepUser w) ([], [])

/-- The dataset-building tail of `main` (src/data.py lines 190-196) under
the surrounding `try`: a raised error produces no output at all. -/
def mainModel (w : World) (stubs : List String) : Option (Frame × Frame) :=
  let p := mainLoop w stubs
  match create_users_dataframe p.1 with
  | .error _ => none
  | .ok udf => some (udf, concatFrames p.2)

/-- `CALLS_PER_MINUTE` (src/data.py line 11). -/
def CALLS_PER_MINUTE : Nat := 80

/-- `ONE_MINUTE` (src/data.py line 12). -/
def ONE_MINUTE : Nat := 60

/-- Modelled from the spec: the RateLimiter implementation behind
`api_call` (src/data.py lines 15-19) is the third-party `ratelimit`
decorator, whose code is not under `src/`; the spec's §4.1 allows a fixed
window ("sliding or fixed window is acceptable").  `okRL N W r c ts` replays
the fixed-window policy over a time-ordered trace of call timestamps:
`r` is the time the current window opened, `c` the calls admitted in it;
a call at time `t` with `W ≤ t - r` opens a fresh window at `t`; a call is
admitted only while the window's count stays within `N`.  A trace is a
possible concurrent schedule of calls reaching the remote service exactly
when the replay admits every call. -/
def okRL (N W : Nat) : Nat → Nat → List Nat → Bool
  | _, _, [] => true
  | r, c, t :: ts =>
    if W ≤ t - r then decide (1 ≤ N) && okRL N W t 1 ts
    else decide (c + 1 ≤ N) && okRL N W r (c + 1) ts

/-- Number of calls of a trace observed in the half-open sliding interval
`[a, a + W)`. -/
def countIn (a W : Nat) (ts : List Nat) : Nat :=
  ts.countP (fun t => decide (a ≤ t) && decide (t < a + W))

/-- Split a trace at the first call that opens a fresh window (first `t`
with `W ≤ t - r`): the calls of the current window, and the rest. -/
def splitWin (W r : Nat) : List Nat → List Nat × List Nat
  | [] => ([], [])
  | t :: ts =>
    if W ≤ t - r then ([], t :: ts)
    else
      let p := splitWin W r ts
      (t :: p.1, p.2)

/- Concrete inputs used by counterexamples and witnesses. -/

/-- A repository page stream with pages of sizes 100, 100, 37 (rows are
dummy empty records; only counts matter for pagination). -/
def fetchSizesA : Nat → RepoResp
  | 1 => ⟨200, List.replicate 100 ([] : Record)⟩
  | 2 => ⟨200, List.replicate 100 ([] : Record)⟩
  | 3 => ⟨200, List.replicate 37 ([] : Record)⟩
  | _ => ⟨200, []⟩

/-- A repository page stream with every page full (size 100). -/
def fetchSizesB : Nat → RepoResp
  | _ => ⟨200, List.replicate 100 ([] : Record)⟩

/-- One search item, used by the pagination counterexample. -/
def itemsP1 : List Record := [[("login", Val.vstr "alice")]]

/-- Search oracle whose second page fails with a 500 status. -/
def fetchFailP2 (_q : String) (page _pp : Nat) : SearchResp :=
  if page = 1 then ⟨200, itemsP1⟩ else ⟨500, []⟩

/-- Search oracle whose second page succeeds and is empty (clean end of
pagination). -/
def fetchCleanP2 (_q : String) (page _pp : Nat) : SearchResp :=
  if page = 1 then ⟨200, itemsP1⟩ else ⟨200, []⟩

/-- A complete user-detail body for login `u` (all `userColumns` keys). -/
def userRec (u : String) : Record :=
  [("login", .vstr u), ("name", .vnull), ("company", .vstr "@Acme "),
   ("location", .vstr "Berlin"), ("email", .vnull), ("hireable", .vnull),
   ("bio", .vnull), ("public_repos", .vnat 1), ("followers", .vnat 300),
   ("following", .vnat 2), ("created_at", .vstr "2015-01-01T00:00:00Z")]

/-- A complete raw repository item owned by nobody in particular (the
`login` column is set by `create_repos_dataframe`). -/
def repoRec : Record :=
  [("full_name", .vstr "alice/proj"), ("created_at", .vstr "2020-01-01T00:00:00Z"),
   ("stargazers_count", .vnat 5), ("watchers_count", .vnat 5),
   ("language", .vstr "Python"), ("has_projects", .vbool true),
   ("has_wiki", .vbool true), ("license", .vobj [("key", "mit")])]

/-- World for the dataset-invariant witness: one user whose detail fetch
succeeds (body keyed by the queried login) and who owns one repository. -/
def wInv : World :=
  { detail := fun u => ⟨200, userRec u⟩
    repoPage := fun _ p => if p = 1 then ⟨200, [repoRec]⟩ else ⟨200, []⟩ }

/-- The 50 stub logins of the fan-out witness. -/
def stubs50 : List String := (List.range 50).map (fun i => "u" ++ toString i)

/-- World for the fan-out witness: detail fetch fails with 404 for the
first five logins and succeeds for the rest; repository fetches fail. -/
def w50 : World :=
  { detail := fun u => if u ∈ stubs50.take 5 then ⟨404, []⟩ else ⟨200, userRec u⟩
    repoPage := fun _ _ => ⟨500, []⟩ }

/-- World whose detail endpoint always fails. -/
def wAllFail : World :=
  { detail := fun _ => ⟨404, []⟩
    repoPage := fun _ _ => ⟨500, []⟩ }

/-- World for the degraded-repositories witness: detail succeeds, the first
repository page fails. -/
def wRepoFail : World :=
  { detail := fun u => ⟨200, userRec u⟩
    repoPage := fun _ _ => ⟨500, []⟩ }

/-- Timestamp trace for the rate-limiter counterexample: 80 calls at time
59 (inside the first window, which opened at 0) and 80 calls at time 60
(which opens a fresh window). -/
def exTrace : List Nat := List.replicate 80 59 ++ List.replicate 80 60

/-- Whether an `Except` value is a success (no exception escaped). -/
def exceptOk {ε α : Type} : Except ε α → Bool
  | .ok _ => true
  | .error _ => false

/-- The run of the dataset-invariant witness world over a single stub. -/
def runInv : Option (Frame × Frame) := mainModel wInv ["u0"]

/-- Users frame of the witness run. -/
def udfInv : Frame := (runInv.getD (emptyFrame, emptyFrame)).1

/-- Repositories frame of the witness run. -/
def rdfInv : Frame := (runInv.getD (emptyFrame, emptyFrame)).2

/-- Every accumulated profile is the body of a successful (and truthy)
detail fetch. -/
def UsersOk (w : World) (users : List Record) : Prop :=
  ∀ d ∈ users, ∃ u, (w.detail u).status = 200 ∧ d = (w.detail u).body

/-- Every row of every accumulated repository frame carries the login of a
user whose detail fetch succeeded and whose body is among the accumulated
profiles. -/
def FramesOk (w : World) (users : List Record) (frames : List Frame) : Prop :=
  ∀ f ∈ frames, ∀ row ∈ f.rows,
    ∃ u, (w.detail u).status = 200 ∧ (w.detail u).body ∈ users ∧
      rlookup "login" row = some (.vstr u)

/-! ### Helper lemmas about the per-user pipeline -/

theorem process_user_fail (w : World) (u : String)
    (h : (w.detail u).status ≠ 200) :
    process_user w u = (.ok (none, none), 0) := by
  simp [process_user, get_user_details, pyFalsyDetail, h]

theorem stepUser_fail (w : World) (acc : List Record × List Frame) (u : String)
    (h : (w.detail u).status ≠ 200) :
    stepUser w acc u = acc := by
  simp [stepUser, process_user_fail w u h]

theorem foldl_stepUser_fail (w : World) :
    ∀ (stubs : List String) (acc : List Record × List Frame),
      (∀ u ∈ stubs, (w.detail u).status ≠ 200) →
      stubs.foldl (stepUser w) acc = acc := by
  intro stubs
  induction stubs with
  | nil => intro acc _; rfl
  | cons u stubs ih =>
    intro acc H
    rw [List.foldl_cons, stepUser_fail w acc u (H u (by simp))]
    exact ih acc (fun x hx => H x (by simp [hx]))

/-! ### Claim theorems -/

/-- C2: listing-mode pagination of `get_user_repos` stops on an empty page,
a short page, or when the accumulated count reaches the cap, and truncates
to the cap: the result never exceeds the cap; pages of sizes [100,100,37]
yield exactly 237 items in 3 page fetches; with cap 150, pages of sizes
[100,100,100] yield exactly 150 items in 2 page fetches. -/
theorem C2_listing_pagination :
    (∀ (fetch : Nat → RepoResp) (maxRepos : Nat),
        (get_user_repos fetch maxRepos).length ≤ maxRepos)
    ∧ (get_user_repos fetchSizesA 500).length = 237
    ∧ (get_user_reposPair fetchSizesA 500).2 = 3
    ∧ (get_user_repos fetchSizesB 150).length = 150
    ∧ (get_user_reposPair fetchSizesB 150).2 = 2 := by
  refine ⟨?_, by decide, by decide, by decide, by decide⟩
  intro fetch maxRepos
  have h : get_user_repos fetch maxRepos =
      ((reposLoop fetch maxRepos (maxRepos + 1) 1 [] 0).1).take maxRepos := rfl
  rw [h, List.length_take]
  exact min_le_left _ _

/-- C5: a non-success status on the detail fetch makes `process_user`
produce no profile and no repositories, and attempt no repository-page
call at all. -/
theorem C5_detail_failure (w : World) (u : String)
    (h : (w.detail u).status ≠ 200) :
    process_user w u = (.ok (none, none), 0) :=
  process_user_fail w u h

theorem C5_witness :
    (wAllFail.detail "x").status ≠ 200
    ∧ process_user wAllFail "x" = (.ok (none, none), 0) :=
  ⟨by decide, C5_detail_failure wAllFail "x" (by decide)⟩

/-- C6: when the detail fetch succeeds (truthy body) but the repository
fetch fails on its first page, `process_user` still returns the profile
together with an empty repository frame instead of propagating the
failure. -/
theorem C6_repo_failure_degrades (w : World) (u : String)
    (h200 : (w.detail u).status = 200) (hbody : (w.detail u).body ≠ [])
    (hrepo : (w.repoPage u 1).status ≠ 200) :
    process_user w u = (.ok (some (w.detail u).body, some emptyFrame), 1) := by
  have hud : get_user_details w u = some (w.detail u).body := by
    simp [get_user_details, h200]
  have hfalsy : pyFalsyDetail (some (w.detail u).body) = false := by
    simp [pyFalsyDetail, List.isEmpty_iff, hbody]
  have hloop : reposLoop (w.repoPage u) 500 (500 + 1) 1 [] 0 = ([], 1) := by
    simp [reposLoop, hrepo]
  have hpair : get_user_reposPair (w.repoPage u) 500 = ([], 1) := by
    simp [get_user_reposPair, hloop]
  simp [process_user, hfalsy, hpair, hud]

theorem C6_witness :
    (wRepoFail.detail "a").status = 200
    ∧ (wRepoFail.detail "a").body ≠ []
    ∧ (wRepoFail.repoPage "a" 1).status ≠ 200
    ∧ process_user wRepoFail "a" =
        (.ok (some (wRepoFail.detail "a").body, some emptyFrame), 1) :=
  ⟨by decide, by decide, by decide,
    C6_repo_failure_degrades wRepoFail "a" (by decide) (by decide) (by decide)⟩

/-- C8 counterexample: the claim says the query selects users strictly
above the threshold, of the shape `location:<city> followers:><threshold>`;
the query the code builds for threshold 200 is the greater-or-equal form
`location:Berlin followers:>=200`, not `location:Berlin followers:>200`. -/
theorem C8_counterexample :
    searchQuery 200 ≠ "location:Berlin followers:>200"
    ∧ searchQuery 200 = "location:Berlin followers:>=200" :=
  ⟨by decide, by decide⟩

/-- C8 amended: for every threshold the query string is the
greater-or-equal filter `location:Berlin followers:>=<threshold>` (city
fixed to Berlin), which differs from the strict filter of the claim, and
the requested page size is the per-page maximum 100. -/
theorem C8_amended : ∀ threshold : Nat,
    searchQuery threshold = "location:Berlin followers:>=" ++ toString threshold
    ∧ searchQuery threshold ≠ "location:Berlin followers:>" ++ toString threshold
    ∧ searchPerPage = 100 := by
  intro t
  refine ⟨rfl, ?_, rfl⟩
  intro hcontra
  unfold searchQuery at hcontra
  have hlen := congrArg String.length hcontra
  rw [String.length_append, String.length_append] at hlen
  have h1 : ("location:Berlin followers:>=" : String).length = 28 := by decide
  have h2 : ("location:Berlin followers:>" : String).length = 27 := by decide
  rw [h1, h2] at hlen
  omega

theorem C8_amended_witness :
    searchQuery 200 = "location:Berlin followers:>=" ++ toString 200
    ∧ searchQuery 200 ≠ "location:Berlin followers:>" ++ toString 200
    ∧ searchPerPage = 100 :=
  C8_amended 200

/-- C9: `clean_company_name` trims surrounding whitespace, drops a leading
'@', and uppercases the remainder; empty or absent input yields the empty
string; with the spec's three concrete examples. -/
theorem C9_clean_company :
    (∀ s : String, clean_company_name (some s) = pyUpper (dropLeadingAt (pyStrip s)))
    ∧ clean_company_name none = ""
    ∧ clean_company_name (some "") = ""
    ∧ clean_company_name (some "@OpenAI ") = "OPENAI"
    ∧ clean_company_name (some "Acme Corp") = "ACME CORP" := by
  refine ⟨?_, rfl, rfl, by decide, by decide⟩
  intro s
  by_cases h : s = ""
  · subst h; decide
  · simp [clean_company_name, dropLeadingAt, h]

/-- C7 counterexample: the failure of page 2 is not surfaced to the caller.
A run whose second page fails with a 500 and a run whose second page is a
clean empty page return the exact same value, so the caller cannot observe
the failure; only the partially collected items are returned. -/
theorem C7_counterexample :
    get_berlin_users fetchFailP2 200 5 = get_berlin_users fetchCleanP2 200 5
    ∧ get_berlin_users fetchFailP2 200 5 = itemsP1
    ∧ (fetchFailP2 (searchQuery 200) 2 searchPerPage).status = 500
    ∧ (fetchCleanP2 (searchQuery 200) 2 searchPerPage).status = 200
    ∧ (fetchCleanP2 (searchQuery 200) 2 searchPerPage).items = [] :=
  ⟨by decide, by decide, by decide, by decide, by decide⟩

/-- C1 counterexample: the fixed-window limiter admits a time-ordered
trace of 160 calls (80 at time 59, 80 at time 60, the second window
opening at 60) whose sliding 60-length interval starting at 59 observes
160 calls — double the cap of 80, refuting the sliding-window bound the
claim states. -/
theorem C1_counterexample :
    List.Sorted (· ≤ ·) (0 :: exTrace)
    ∧ okRL CALLS_PER_MINUTE ONE_MINUTE 0 0 exTrace = true
    ∧ countIn 59 ONE_MINUTE exTrace = 2 * CALLS_PER_MINUTE
    ∧ ¬ countIn 59 ONE_MINUTE exTrace ≤ CALLS_PER_MINUTE :=
  ⟨by decide, by decide, by decide, by decide⟩

/-- C10: `create_users_dataframe` on an empty list raises `KeyError`
(`pd.DataFrame([])` has no `company` column) rather than returning a
header-only table, and a run in which every user's detail fetch fails
therefore produces no users output at all. -/
theorem C10_no_output_when_empty (w : World) (stubs : List String)
    (H : ∀ u ∈ stubs, (w.detail u).status ≠ 200) :
    create_users_dataframe [] = .error "KeyError: company"
    ∧ mainModel w stubs = none := by
  refine ⟨by decide, ?_⟩
  have hloop : mainLoop w stubs = ([], []) := foldl_stepUser_fail w stubs ([], []) H
  unfold mainModel
  rw [hloop]
  have hc : create_users_dataframe ([] : List Record) = .error "KeyError: company" := by
    decide
  simp [hc]

theorem C10_witness :
    create_users_dataframe [] = .error "KeyError: company"
    ∧ mainModel wAllFail ["a", "b"] = none :=
  C10_no_output_when_empty wAllFail ["a", "b"] (by decide)

/-! ### Pagination-on-failure lemmas (C7) -/

theorem berlinLoop_partial (fetch : String → Nat → Nat → SearchResp) (q : String) :
    ∀ (pre : List (List Record)) (page : Nat) (acc : List Record) (fuel : Nat),
      pre.length < fuel →
      (∀ i, i < pre.length → fetch q (page + i) searchPerPage = ⟨200, pre.getD i []⟩) →
      (∀ p ∈ pre, p ≠ []) →
      (fetch q (page + pre.length) searchPerPage).status ≠ 200 →
      berlinLoop fetch q fuel page acc = acc ++ pre.flatten := by
  intro pre
  induction pre with
  | nil =>
    intro page acc fuel hfuel hsucc hne hfail
    cases fuel with
    | zero => omega
    | succ f =>
      have h0 : (fetch q page searchPerPage).status ≠ 200 := by simpa using hfail
      simp [berlinLoop, h0]
  | cons p pre ih =>
    intro page acc fuel hfuel hsucc hne hfail
    cases fuel with
    | zero => simp at hfuel
    | succ f =>
      have h0 : fetch q page searchPerPage = ⟨200, p⟩ := by
        simpa using hsucc 0 (by simp)
      have hp : p ≠ [] := hne p (by simp)
      have hrec := ih (page + 1) (acc ++ p) f (by simpa using hfuel)
        (fun i hi => by
          have e : page + 1 + i = page + (i + 1) := by omega
          rw [e]
          simpa using hsucc (i + 1) (by simpa using hi))
        (fun x hx => hne x (by simp [hx]))
        (by
          have e : page + 1 + pre.length = page + (p :: pre).length := by
            simp; omega
          rw [e]
          exact hfail)
      simp only [berlinLoop, h0]
      simp [hp, hrec]

theorem reposLoop_partial (fetch : Nat → RepoResp) (maxRepos : Nat) :
    ∀ (pre : List (List Record)) (page : Nat) (acc : List Record) (calls fuel : Nat),
      pre.length < fuel →
      acc.length + pre.length * 100 < maxRepos →
      (∀ i, i < pre.length → fetch (page + i) = ⟨200, pre.getD i []⟩) →
      (∀ p ∈ pre, p.length = 100) →
      (fetch (page + pre.length)).status ≠ 200 →
      reposLoop fetch maxRepos fuel page acc calls =
        (acc ++ pre.flatten, calls + pre.length + 1) := by
  intro pre
  induction pre with
  | nil =>
    intro page acc calls fuel hfuel hacc hsucc hlen hfail
    cases fuel with
    | zero => omega
    | succ f =>
      have h0 : (fetch page).status ≠ 200 := by simpa using hfail
      have hlt : acc.length < maxRepos := by omega
      simp [reposLoop, hlt, h0]
  | cons p pre ih =>
    intro page acc calls fuel hfuel hacc hsucc hlen hfail
    cases fuel with
    | zero => simp at hfuel
    | succ f =>
      have h0 : fetch page = ⟨200, p⟩ := by
        simpa using hsucc 0 (by simp)
      have hp100 : p.length = 100 := hlen p (by simp)
      have hpne : p ≠ [] := by
        intro hc
        rw [hc] at hp100
        simp at hp100
      have hlt : acc.length < maxRepos := by
        have : (p :: pre).length * 100 = 100 + pre.length * 100 := by
          simp [Nat.succ_mul]; omega
        omega
      have hrec := ih (page + 1) (acc ++ p) (calls + 1) f (by simpa using hfuel)
        (by
          have : (p :: pre).length * 100 = pre.length * 100 + 100 := by
            simp [Nat.succ_mul]
          simp [List.length_append, hp100]
          omega)
        (fun i hi => by
          have e : page + 1 + i = page + (i + 1) := by omega
          rw [e]
          simpa using hsucc (i + 1) (by simpa using hi))
        (fun x hx => hlen x (by simp [hx]))
        (by
          have e : page + 1 + pre.length = page + (p :: pre).length := by
            simp; omega
          rw [e]
          exact hfail)
      simp only [reposLoop, if_pos hlt, h0]
      simp [hpne, hp100, hrec]
      omega

theorem flatten_len_eq (n : Nat) :
    ∀ (pre : List (List Record)), (∀ p ∈ pre, p.length = n) →
      pre.flatten.length = pre.length * n := by
  intro pre
  induction pre with
  | nil => intro _; simp
  | cons p pre ih =>
    intro h
    have hp : p.length = n := h p (by simp)
    have := ih (fun x hx => h x (by simp [hx]))
    simp [List.flatten_cons, hp, this, Nat.succ_mul]
    omega

/-- C7 amended: when the fetch of page k fails, each paginator stops
immediately and returns exactly the items collected from pages 1..k-1
(and, for the listing paginator, has made exactly k page calls); the
failure itself is only logged, not surfaced in the returned value. -/
theorem C7_partial_on_failure :
    (∀ (fetch : String → Nat → Nat → SearchResp) (minF fuel : Nat)
        (pre : List (List Record)),
      pre.length < fuel →
      (∀ i, i < pre.length →
        fetch (searchQuery minF) (1 + i) searchPerPage = ⟨200, pre.getD i []⟩) →
      (∀ p ∈ pre, p ≠ []) →
      (fetch (searchQuery minF) (1 + pre.length) searchPerPage).status ≠ 200 →
      get_berlin_users fetch minF fuel = pre.flatten)
    ∧ (∀ (fetch : Nat → RepoResp) (maxRepos : Nat) (pre : List (List Record)),
      pre.length * 100 < maxRepos →
      (∀ i, i < pre.length → fetch (1 + i) = ⟨200, pre.getD i []⟩) →
      (∀ p ∈ pre, p.length = 100) →
      (fetch (1 + pre.length)).status ≠ 200 →
      get_user_reposPair fetch maxRepos = (pre.flatten, pre.length + 1)) := by
  constructor
  · intro fetch minF fuel pre hfuel hsucc hne hfail
    have := berlinLoop_partial fetch (searchQuery minF) pre 1 [] fuel hfuel
      hsucc hne hfail
    simpa [get_berlin_users] using this
  · intro fetch maxRepos pre hcap hsucc hlen hfail
    have hle : pre.length ≤ pre.length * 100 := by
      calc pre.length = pre.length * 1 := by omega
        _ ≤ pre.length * 100 := Nat.mul_le_mul_left _ (by omega)
    have hloop := reposLoop_partial fetch maxRepos pre 1 [] 0 (maxRepos + 1)
      (by omega) (by simpa using hcap) hsucc hlen hfail
    have hflat : pre.flatten.length = pre.length * 100 := flatten_len_eq 100 pre hlen
    have htake : pre.flatten.take maxRepos = pre.flatten := by
      apply List.take_of_length_le
      omega
    simp [get_user_reposPair, hloop, htake]

theorem C7_witness :
    (1 : Nat) < 5
    ∧ get_berlin_users fetchFailP2 200 5 = [itemsP1].flatten :=
  ⟨by omega,
    C7_partial_on_failure.1 fetchFailP2 200 5 [itemsP1] (by decide)
      (fun i hi => by
        have h0 : i = 0 := by
          have hi' : i < 1 := by simpa using hi
          omega
        subst h0
        decide)
      (by decide)
      (by decide)⟩

/-! ### Record and frame lemmas (C3, C4) -/

theorem rlookup_map_set (k : String) (v : Val) :
    ∀ r : Record, (rlookup k r).isSome = true →
      rlookup k (r.map fun p => if p.1 = k then (k, v) else p) = some v := by
  intro r
  induction r with
  | nil => intro h; simp [rlookup] at h
  | cons p r ih =>
    intro h
    by_cases hp : p.1 = k
    · simp [rlookup, hp]
    · simp only [rlookup, hp, if_false] at h
      simp only [List.map_cons, rlookup, hp, if_neg hp]
      simp [hp]
      exact ih h

theorem rlookup_map_set_ne (k k' : String) (v : Val) (h : k' ≠ k) :
    ∀ r : Record,
      rlookup k' (r.map fun p => if p.1 = k then (k, v) else p) = rlookup k' r := by
  intro r
  induction r with
  | nil => rfl
  | cons p r ih =>
    simp only [List.map_cons, rlookup]
    by_cases hp : p.1 = k
    · rw [if_pos hp]
      have h1 : ¬ (((k, v) : String × Val).1 = k') := fun hc => h hc.symm
      have h2 : ¬ (p.1 = k') := by
        rw [hp]
        exact fun hc => h hc.symm
      rw [if_neg h1, if_neg h2, ih]
    · rw [if_neg hp]
      by_cases hp' : p.1 = k'
      · rw [if_pos hp', if_pos hp']
      · rw [if_neg hp', if_neg hp', ih]

theorem rlookup_append_of_none (k : String) (v : Val) :
    ∀ r : Record, rlookup k r = none → rlookup k (r ++ [(k, v)]) = some v := by
  intro r
  induction r with
  | nil => intro _; simp [rlookup]
  | cons p r ih =>
    intro h
    by_cases hp : p.1 = k
    · simp [rlookup, hp] at h
    · simp only [rlookup, hp, if_false] at h
      simp [rlookup, hp, ih h]

theorem rlookup_append_ne (k k' : String) (v : Val) (h : k' ≠ k) :
    ∀ r : Record, rlookup k' (r ++ [(k, v)]) = rlookup k' r := by
  intro r
  induction r with
  | nil =>
    have hk : ¬ (k = k') := fun hc => h hc.symm
    simp [rlookup, hk]
  | cons p r ih =>
    by_cases hp : p.1 = k'
    · simp [rlookup, hp]
    · simp [rlookup, hp, ih]

theorem rlookup_setField_self (r : Record) (k : String) (v : Val) :
    rlookup k (setField r k v) = some v := by
  unfold setField
  by_cases h : (rlookup k r).isSome = true
  · simp only [h, if_true]
    exact rlookup_map_set k v r h
  · simp only [h, if_false]
    refine rlookup_append_of_none k v r ?_
    cases hr : rlookup k r with
    | none => rfl
    | some x => rw [hr] at h; simp at h

theorem rlookup_setField_ne (r : Record) (k k' : String) (v : Val) (h : k' ≠ k) :
    rlookup k' (setField r k v) = rlookup k' r := by
  unfold setField
  by_cases hs : (rlookup k r).isSome = true
  · simp only [hs, if_true]
    exact rlookup_map_set_ne k k' v h r
  · simp only [hs, if_false]
    exact rlookup_append_ne k k' v h r

theorem rlookup_proj (r : Record) (c : String) :
    ∀ cs : List String, c ∈ cs →
      rlookup c (cs.map fun c' => (c', (rlookup c' r).getD Val.vnull)) =
        some ((rlookup c r).getD Val.vnull) := by
  intro cs
  induction cs with
  | nil => intro h; simp at h
  | cons c' cs ih =>
    intro h
    by_cases hc : c' = c
    · subst hc; simp [rlookup]
    · have hmem : c ∈ cs := by
        cases h with
        | head => exact absurd rfl hc
        | tail _ ht => exact ht
      simp [rlookup, hc, ih hmem]

theorem mem_zipWith_setField (k : String) :
    ∀ (rows : List Record) (vals : List Val) (row : Record),
      row ∈ List.zipWith (fun r v => setField r k v) rows vals →
      ∃ r ∈ rows, ∃ v, row = setField r k v := by
  intro rows
  induction rows with
  | nil => intro vals row h; simp at h
  | cons r rows ih =>
    intro vals row h
    cases vals with
    | nil => simp at h
    | cons v vals =>
      rw [List.zipWith_cons_cons, List.mem_cons] at h
      cases h with
      | inl he => exact ⟨r, by simp, v, he⟩
      | inr ht =>
        obtain ⟨r', hr', v', hv'⟩ := ih vals row ht
        exact ⟨r', by simp [hr'], v', hv'⟩

theorem zipWith_setField_cover (k : String) :
    ∀ (rows : List Record) (vals : List Val), rows.length ≤ vals.length →
      ∀ r ∈ rows, ∃ v, setField r k v ∈ List.zipWith (fun r v => setField r k v) rows vals := by
  intro rows
  induction rows with
  | nil => intro vals _ r hr; simp at hr
  | cons r0 rows ih =>
    intro vals hlen r hr
    cases vals with
    | nil => simp at hlen
    | cons v0 vals =>
      rw [List.zipWith_cons_cons]
      cases hr with
      | head => exact ⟨v0, by simp⟩
      | tail _ ht =>
        obtain ⟨v, hv⟩ := ih vals (by simpa using hlen) r ht
        exact ⟨v, by simp [hv]⟩

theorem mapM_ok_length {α β : Type} (f : α → Except String β) :
    ∀ (l : List α) (res : List β), l.mapM f = .ok res → res.length = l.length := by
  intro l
  induction l with
  | nil =>
    intro res h
    simp only [List.mapM_nil, pure, Except.pure] at h
    cases h
    rfl
  | cons a l ih =>
    intro res h
    rw [List.mapM_cons] at h
    cases hfa : f a with
    | error e =>
      rw [hfa] at h
      simp [Bind.bind, Except.bind] at h
    | ok b =>
      rw [hfa] at h
      simp only [Bind.bind, Except.bind] at h
      cases hml : l.mapM f with
      | error e => rw [hml] at h; simp at h
      | ok bs =>
        rw [hml] at h
        simp only [pure, Except.pure] at h
        cases h
        simp [ih bs hml]

theorem get_user_details_some (w : World) (u : String) (r : Record)
    (h : get_user_details w u = some r) :
    (w.detail u).status = 200 ∧ r = (w.detail u).body := by
  unfold get_user_details at h
  by_cases hs : (w.detail u).status = 200
  · simp [hs] at h
    exact ⟨hs, h.symm⟩
  · simp [hs] at h

theorem create_repos_login (repos : List Record) (u : String) (df : Frame)
    (h : create_repos_dataframe repos u = .ok df) :
    ∀ row ∈ df.rows, rlookup "login" row = some (.vstr u) := by
  by_cases hre : repos = []
  · subst hre
    simp only [create_repos_dataframe, if_pos rfl] at h
    cases h
    intro row hrow
    simp [emptyFrame] at hrow
  · simp only [create_repos_dataframe, if_neg hre] at h
    cases hg : getCol (setColConst (mkFrame repos) "login" (.vstr u)) "license" with
    | error e =>
      rw [hg] at h
      simp [Bind.bind, Except.bind] at h
    | ok lic =>
      rw [hg] at h
      simp only [Bind.bind, Except.bind] at h
      set df2 := setColVals (setColConst (mkFrame repos) "login" (.vstr u))
        "license_name" (lic.map licenseKey) with hdf2
      by_cases hall : repoColumns.all (fun c => decide (c ∈ df2.cols)) = true
      · rw [selectCols, if_pos hall] at h
        cases h
        intro row hrow
        simp only [List.mem_map] at hrow
        obtain ⟨r2, hr2, hproj⟩ := hrow
        have hlog : rlookup "login" r2 = some (.vstr u) := by
          have hr2' : r2 ∈ List.zipWith (fun r v => setField r "license_name" v)
              ((mkFrame repos).rows.map fun r => setField r "login" (.vstr u))
              (lic.map licenseKey) := by
            simpa [df2, setColVals, setColConst] using hr2
          obtain ⟨r1, hr1, v, hv⟩ := mem_zipWith_setField "license_name" _ _ _ hr2'
          obtain ⟨r0, _, hr0⟩ := List.mem_map.mp hr1
          rw [hv, rlookup_setField_ne _ _ _ _ (by decide), ← hr0,
            rlookup_setField_self]
        rw [← hproj, rlookup_proj r2 "login" repoColumns (by decide), hlog]
        rfl
      · rw [selectCols, if_neg hall] at h
        cases h

theorem process_user_ok_shape (w : World) (u : String)
    (x : Option Record × Option Frame)
    (h : (process_user w u).1 = .ok x) :
    x = (none, none) ∨
    ∃ df : Frame, x = (some (w.detail u).body, some df)
      ∧ (w.detail u).status = 200 ∧ (w.detail u).body ≠ []
      ∧ ∀ row ∈ df.rows, rlookup "login" row = some (.vstr u) := by
  unfold process_user at h
  cases hud : get_user_details w u with
  | none =>
    rw [hud] at h
    simp only [pyFalsyDetail, if_true] at h
    cases h
    exact Or.inl rfl
  | some r =>
    obtain ⟨hs, hr⟩ := get_user_details_some w u r hud
    rw [hud] at h
    by_cases hie : r.isEmpty = true
    · simp only [pyFalsyDetail, hie, if_true] at h
      cases h
      exact Or.inl rfl
    · simp only [pyFalsyDetail, hie, Bool.false_eq_true, if_false] at h
      have hrne : r ≠ [] := by
        intro hc
        rw [hc] at hie
        simp at hie
      by_cases hpe : (get_user_reposPair (w.repoPage u) 500).1 = []
      · rw [if_neg (by simp [hpe])] at h
        have h' : Except.ok (ε := String) (some r, some emptyFrame) = .ok x := h
        cases h'
        refine Or.inr ⟨emptyFrame, ?_, hs, ?_, ?_⟩
        · rw [hr]
        · rw [← hr]; exact hrne
        · intro row hrow
          simp [emptyFrame] at hrow
      · rw [if_pos hpe] at h
        cases hcr : create_repos_dataframe (get_user_reposPair (w.repoPage u) 500).1 u with
        | error e =>
          rw [hcr] at h
          have h' : Except.error (α := Option Record × Option Frame) e = .ok x := h
          cases h'
        | ok df =>
          rw [hcr] at h
          have h' : Except.ok (ε := String) (some r, some df) = .ok x := h
          cases h'
          refine Or.inr ⟨df, ?_, hs, ?_, ?_⟩
          · rw [hr]
          · rw [← hr]; exact hrne
          · exact create_repos_login _ u df hcr


theorem create_users_rows (users : List Record) (udf : Frame)
    (h : create_users_dataframe users = .ok udf) :
    (∀ d ∈ users, ∃ prow ∈ udf.rows,
      rlookup "login" prow = some ((rlookup "login" d).getD Val.vnull))
    ∧ (∀ prow ∈ udf.rows, ∃ d ∈ users,
      rlookup "login" prow = some ((rlookup "login" d).getD Val.vnull)) := by
  have h1 : (getCol (mkFrame users) "company" >>= fun comp =>
      comp.mapM cleanCompanyVal >>= fun cleaned =>
      selectCols (setColVals (mkFrame users) "company" cleaned) userColumns) =
      Except.ok udf := h
  clear h
  cases hg : getCol (mkFrame users) "company" with
  | error e =>
    rw [hg] at h1
    simp [Bind.bind, Except.bind] at h1
  | ok comp =>
    rw [hg] at h1
    simp only [Bind.bind, Except.bind] at h1
    cases hm : comp.mapM cleanCompanyVal with
    | error e =>
      rw [hm] at h1
      simp at h1
    | ok cleaned =>
      rw [hm] at h1
      have h : selectCols (setColVals (mkFrame users) "company" cleaned)
          userColumns = Except.ok udf := h1
      have hcomp : comp = users.map fun r => (rlookup "company" r).getD Val.vnull := by
        unfold getCol at hg
        by_cases hc : "company" ∈ (mkFrame users).cols
        · rw [if_pos hc] at hg
          cases hg
          rfl
        · rw [if_neg hc] at hg
          cases hg
      have hcllen : users.length ≤ cleaned.length := by
        rw [mapM_ok_length cleanCompanyVal comp cleaned hm, hcomp]
        simp
      set df2 := setColVals (mkFrame users) "company" cleaned with hdf2
      by_cases hall : userColumns.all (fun c => decide (c ∈ df2.cols)) = true
      · rw [selectCols, if_pos hall] at h
        cases h
        constructor
        · intro d hd
          obtain ⟨v, hv⟩ := zipWith_setField_cover "company" users cleaned hcllen d hd
          refine ⟨userColumns.map fun c' =>
            (c', (rlookup c' (setField d "company" v)).getD Val.vnull), ?_, ?_⟩
          · simp only [List.mem_map]
            refine ⟨setField d "company" v, ?_, rfl⟩
            simpa [df2, setColVals, mkFrame] using hv
          · rw [rlookup_proj _ "login" userColumns (by decide),
              rlookup_setField_ne _ _ _ _ (by decide)]
        · intro prow hprow
          simp only [List.mem_map] at hprow
          obtain ⟨r2, hr2, hproj⟩ := hprow
          have hr2' : r2 ∈ List.zipWith (fun r v => setField r "company" v)
              users cleaned := by
            simpa [df2, setColVals, mkFrame] using hr2
          obtain ⟨d, hd, v, hv⟩ := mem_zipWith_setField "company" users cleaned r2 hr2'
          refine ⟨d, hd, ?_⟩
          rw [← hproj, rlookup_proj r2 "login" userColumns (by decide), hv,
            rlookup_setField_ne _ _ _ _ (by decide)]
      · rw [selectCols, if_neg hall] at h
        cases h

theorem mem_concatFrames (fs : List Frame) (row : Record)
    (h : row ∈ (concatFrames fs).rows) : ∃ f ∈ fs, row ∈ f.rows := by
  unfold concatFrames at h
  by_cases hfs : fs = []
  · rw [if_pos hfs] at h
    simp [emptyFrame] at h
  · rw [if_neg hfs] at h
    have h' : row ∈ (fs.map Frame.rows).flatten := h
    obtain ⟨l, hl, hrow⟩ := List.mem_flatten.mp h'
    obtain ⟨f, hf, hfl⟩ := List.mem_map.mp hl
    refine ⟨f, hf, ?_⟩
    rw [hfl]
    exact hrow

theorem stepUser_err (w : World) (acc : List Record × List Frame) (u : String)
    (e : String) (h : (process_user w u).1 = .error e) :
    stepUser w acc u = acc := by
  unfold stepUser
  rw [h]

theorem stepUser_ok_none (w : World) (acc : List Record × List Frame) (u : String)
    (h : (process_user w u).1 = .ok (none, none)) :
    stepUser w acc u = acc := by
  unfold stepUser
  rw [h]

theorem stepUser_ok_some (w : World) (acc : List Record × List Frame) (u : String)
    (d : Record) (f : Frame)
    (h : (process_user w u).1 = .ok (some d, some f)) (hd : d.isEmpty = false) :
    stepUser w acc u = (acc.1 ++ [d], if f.rows ≠ [] then acc.2 ++ [f] else acc.2) := by
  unfold stepUser
  rw [h]
  simp [hd]

theorem stepUser_inv (w : World) (acc : List Record × List Frame) (u : String)
    (h1 : UsersOk w acc.1) (h2 : FramesOk w acc.1 acc.2) :
    UsersOk w (stepUser w acc u).1
    ∧ FramesOk w (stepUser w acc u).1 (stepUser w acc u).2 := by
  cases hpc : (process_user w u).1 with
  | error e =>
    rw [stepUser_err w acc u e hpc]
    exact ⟨h1, h2⟩
  | ok x =>
    rcases process_user_ok_shape w u x hpc with hnn | ⟨df, hx, hs, hbody, hrows⟩
    · rw [hnn] at hpc
      rw [stepUser_ok_none w acc u hpc]
      exact ⟨h1, h2⟩
    · rw [hx] at hpc
      have hie : (w.detail u).body.isEmpty = false := by
        simp [List.isEmpty_iff, hbody]
      rw [stepUser_ok_some w acc u _ df hpc hie]
      have hu1 : UsersOk w (acc.1 ++ [(w.detail u).body]) := by
        intro d hd
        rcases List.mem_append.mp hd with hl | hr
        · exact h1 d hl
        · exact ⟨u, hs, by simpa using hr⟩
      refine ⟨hu1, ?_⟩
      by_cases hdfr : df.rows = []
      · rw [if_neg (by simp [hdfr])]
        intro f hf row hrow
        obtain ⟨u', hs', hm, hlog⟩ := h2 f hf row hrow
        exact ⟨u', hs', List.mem_append_left _ hm, hlog⟩
      · rw [if_pos hdfr]
        intro f hf row hrow
        rcases List.mem_append.mp hf with hfl | hfr
        · obtain ⟨u', hs', hm, hlog⟩ := h2 f hfl row hrow
          exact ⟨u', hs', List.mem_append_left _ hm, hlog⟩
        · have hfe : f = df := by simpa using hfr
          subst hfe
          exact ⟨u, hs, List.mem_append_right _ (by simp), hrows row hrow⟩

theorem mainLoop_inv (w : World) :
    ∀ (stubs : List String) (acc : List Record × List Frame),
      UsersOk w acc.1 → FramesOk w acc.1 acc.2 →
      UsersOk w (stubs.foldl (stepUser w) acc).1
      ∧ FramesOk w (stubs.foldl (stepUser w) acc).1
          (stubs.foldl (stepUser w) acc).2 := by
  intro stubs
  induction stubs with
  | nil => intro acc hu hf; exact ⟨hu, hf⟩
  | cons u stubs ih =>
    intro acc hu hf
    rw [List.foldl_cons]
    obtain ⟨hu', hf'⟩ := stepUser_inv w acc u hu hf
    exact ih (stepUser w acc u) hu' hf'

/-- C3: in any produced dataset, every repository row's owner login is the
login of a profile row in the users frame (under the service contract that
a 200 detail body carries the queried login), and a user whose detail
fetch failed contributes neither a profile row nor any repository row. -/
theorem C3_owner_invariant (w : World) (stubs : List String)
    (H1 : ∀ u, (w.detail u).status = 200 →
      rlookup "login" (w.detail u).body = some (.vstr u))
    (udf rdf : Frame) (hrun : mainModel w stubs = some (udf, rdf)) :
    (∀ row ∈ rdf.rows, ∃ u, rlookup "login" row = some (.vstr u)
      ∧ (w.detail u).status = 200
      ∧ ∃ prow ∈ udf.rows, rlookup "login" prow = some (.vstr u))
    ∧ (∀ u, (w.detail u).status ≠ 200 →
      (∀ prow ∈ udf.rows, rlookup "login" prow ≠ some (.vstr u))
      ∧ (∀ row ∈ rdf.rows, rlookup "login" row ≠ some (.vstr u))) := by
  unfold mainModel at hrun
  have hrun1 : (match create_users_dataframe (mainLoop w stubs).1 with
      | Except.error _ => none
      | Except.ok udf' => some (udf', concatFrames (mainLoop w stubs).2)) =
      some (udf, rdf) := hrun
  clear hrun
  cases hc : create_users_dataframe (mainLoop w stubs).1 with
  | error e =>
    rw [hc] at hrun1
    cases hrun1
  | ok udf' =>
    rw [hc] at hrun1
    simp only [Option.some.injEq, Prod.mk.injEq] at hrun1
    obtain ⟨hue, hre⟩ := hrun1
    subst hue
    subst hre
    have hinv0 := mainLoop_inv w stubs ([], [])
      (by intro d hd; simp at hd) (by intro f hf; simp at hf)
    have hinv : UsersOk w (mainLoop w stubs).1
        ∧ FramesOk w (mainLoop w stubs).1 (mainLoop w stubs).2 := hinv0
    obtain ⟨hfwd, hbwd⟩ := create_users_rows (mainLoop w stubs).1 udf' hc
    constructor
    · intro row hrow
      obtain ⟨f, hf, hrowf⟩ := mem_concatFrames (mainLoop w stubs).2 row hrow
      obtain ⟨u', hs', hm, hlog⟩ := hinv.2 f hf row hrowf
      obtain ⟨prow, hprow, hplog⟩ := hfwd ((w.detail u').body) hm
      refine ⟨u', hlog, hs', prow, hprow, ?_⟩
      rw [hplog, H1 u' hs']
      rfl
    · intro u hu
      constructor
      · intro prow hprow hcontra
        obtain ⟨d, hd, hplog⟩ := hbwd prow hprow
        obtain ⟨u', hs', hde⟩ := hinv.1 d hd
        rw [hde, H1 u' hs'] at hplog
        rw [hplog] at hcontra
        simp only [Option.getD_some, Option.some.injEq, Val.vstr.injEq] at hcontra
        rw [hcontra] at hs'
        exact hu hs'
      · intro row hrow hcontra
        obtain ⟨f, hf, hrowf⟩ := mem_concatFrames (mainLoop w stubs).2 row hrow
        obtain ⟨u', hs', _, hlog⟩ := hinv.2 f hf row hrowf
        rw [hlog] at hcontra
        simp only [Option.some.injEq, Val.vstr.injEq] at hcontra
        rw [hcontra] at hs'
        exact hu hs'

theorem C3_witness :
    (∀ row ∈ rdfInv.rows, ∃ u, rlookup "login" row = some (.vstr u)
      ∧ (wInv.detail u).status = 200
      ∧ ∃ prow ∈ udfInv.rows, rlookup "login" prow = some (.vstr u))
    ∧ (∀ u, (wInv.detail u).status ≠ 200 →
      (∀ prow ∈ udfInv.rows, rlookup "login" prow ≠ some (.vstr u))
      ∧ (∀ row ∈ rdfInv.rows, rlookup "login" row ≠ some (.vstr u))) :=
  C3_owner_invariant wInv ["u0"] (fun _ _ => rfl) udfInv rdfInv (by decide)

theorem process_user_succ_shape (w : World) (u : String)
    (hs : (w.detail u).status = 200) (hb : (w.detail u).body ≠ []) :
    (∃ e, (process_user w u).1 = .error e) ∨
    (∃ df, (process_user w u).1 = .ok (some (w.detail u).body, some df)) := by
  unfold process_user
  have hud : get_user_details w u = some (w.detail u).body := by
    simp [get_user_details, hs]
  rw [hud]
  have hie : pyFalsyDetail (some (w.detail u).body) = false := by
    simp [pyFalsyDetail, List.isEmpty_iff, hb]
  simp only [hie, Bool.false_eq_true, if_false]
  cases hdf : (if (get_user_reposPair (w.repoPage u) 500).1 ≠ [] then
      create_repos_dataframe (get_user_reposPair (w.repoPage u) 500).1 u
    else .ok emptyFrame) with
  | error e => exact Or.inl ⟨e, rfl⟩
  | ok df => exact Or.inr ⟨df, rfl⟩

theorem stepUser_succ_len (w : World) (acc : List Record × List Frame) (u : String)
    (hs : (w.detail u).status = 200) (hb : (w.detail u).body ≠ [])
    (hok : exceptOk (process_user w u).1 = true) :
    (stepUser w acc u).1.length = acc.1.length + 1 := by
  rcases process_user_succ_shape w u hs hb with ⟨e, he⟩ | ⟨df, hdf⟩
  · rw [he] at hok
    simp [exceptOk] at hok
  · have hie : (w.detail u).body.isEmpty = false := by
      simp [List.isEmpty_iff, hb]
    rw [stepUser_ok_some w acc u _ df hdf hie]
    simp

theorem mainLoop_count (w : World) :
    ∀ (stubs : List String) (acc : List Record × List Frame),
      (∀ u ∈ stubs, exceptOk (process_user w u).1 = true) →
      (∀ u ∈ stubs, (w.detail u).status = 200 → (w.detail u).body ≠ []) →
      (stubs.foldl (stepUser w) acc).1.length =
        acc.1.length + stubs.countP (fun u => decide ((w.detail u).status = 200)) := by
  intro stubs
  induction stubs with
  | nil => intro acc _ _; simp
  | cons u stubs ih =>
    intro acc Hok Hb
    rw [List.foldl_cons, List.countP_cons]
    by_cases hs : (w.detail u).status = 200
    · have hstep := stepUser_succ_len w acc u hs (Hb u (by simp) hs) (Hok u (by simp))
      rw [ih (stepUser w acc u) (fun x hx => Hok x (by simp [hx]))
        (fun x hx => Hb x (by simp [hx])), hstep]
      simp [hs]
      omega
    · rw [stepUser_fail w acc u hs]
      rw [ih acc (fun x hx => Hok x (by simp [hx])) (fun x hx => Hb x (by simp [hx]))]
      simp [hs]

/-- C4: every stub is accounted for exactly once — each success (status
200, truthy body) adds exactly one profile, each failure is excluded and
the batch continues: the number of accumulated profiles equals the number
of stubs whose detail fetch succeeded (given no per-user exception
escapes). -/
theorem C4_fanout_accounting (w : World) (stubs : List String)
    (Hok : ∀ u ∈ stubs, exceptOk (process_user w u).1 = true)
    (Hbody : ∀ u ∈ stubs, (w.detail u).status = 200 → (w.detail u).body ≠ []) :
    (mainLoop w stubs).1.length =
      stubs.countP (fun u => decide ((w.detail u).status = 200)) := by
  have h := mainLoop_count w stubs ([], []) Hok Hbody
  simpa [mainLoop] using h

theorem C4_witness :
    (mainLoop w50 stubs50).1.length =
      stubs50.countP (fun u => decide ((w50.detail u).status = 200))
    ∧ stubs50.countP (fun u => decide ((w50.detail u).status = 200)) = 45
    ∧ (mainLoop w50 stubs50).1.length = 45
    ∧ mainModel w50 stubs50 ≠ none :=
  ⟨C4_fanout_accounting w50 stubs50 (by decide) (by decide),
    by decide, by decide, by decide⟩

/-! ### Rate-limiter lemmas (C1) -/

theorem splitWin_append (W r : Nat) :
    ∀ ts : List Nat, (splitWin W r ts).1 ++ (splitWin W r ts).2 = ts := by
  intro ts
  induction ts with
  | nil => rfl
  | cons t ts ih =>
    unfold splitWin
    by_cases h : W ≤ t - r
    · rw [if_pos h]
      rfl
    · rw [if_neg h]
      have h1 : (t :: (splitWin W r ts).1) ++ (splitWin W r ts).2 = t :: ts := by
        rw [List.cons_append, ih]
      exact h1

theorem splitWin_fst_lt (W r : Nat) :
    ∀ ts : List Nat, ∀ t ∈ (splitWin W r ts).1, ¬ W ≤ t - r := by
  intro ts
  induction ts with
  | nil => intro t ht; simp [splitWin] at ht
  | cons t0 ts ih =>
    intro t ht
    unfold splitWin at ht
    by_cases h : W ≤ t0 - r
    · rw [if_pos h] at ht
      simp at ht
    · rw [if_neg h] at ht
      have ht' : t ∈ t0 :: (splitWin W r ts).1 := ht
      rcases List.mem_cons.mp ht' with he | hm
      · rw [he]; exact h
      · exact ih t hm

theorem okRL_split (N W : Nat) :
    ∀ (ts : List Nat) (r c : Nat), c ≤ N → okRL N W r c ts = true →
      c + (splitWin W r ts).1.length ≤ N
      ∧ ∀ t1 rest, (splitWin W r ts).2 = t1 :: rest →
          okRL N W t1 1 rest = true ∧ W ≤ t1 - r ∧ 1 ≤ N := by
  intro ts
  induction ts with
  | nil =>
    intro r c hc _
    constructor
    · simpa [splitWin] using hc
    · intro t1 rest h
      simp [splitWin] at h
  | cons t ts ih =>
    intro r c hc hok
    unfold okRL at hok
    unfold splitWin
    by_cases h : W ≤ t - r
    · rw [if_pos h] at hok ⊢
      simp only [Bool.and_eq_true, decide_eq_true_eq] at hok
      constructor
      · simpa using hc
      · intro t1 rest he
        have he' : t :: ts = t1 :: rest := he
        cases he'
        exact ⟨hok.2, h, hok.1⟩
    · rw [if_neg h] at hok ⊢
      simp only [Bool.and_eq_true, decide_eq_true_eq] at hok
      have hih := ih r (c + 1) hok.1 hok.2
      constructor
      · show c + (t :: (splitWin W r ts).1).length ≤ N
        have := hih.1
        simp only [List.length_cons]
        omega
      · intro t1 rest he
        have he' : (splitWin W r ts).2 = t1 :: rest := he
        exact hih.2 t1 rest he'

theorem countIn_append (a W : Nat) (l1 l2 : List Nat) :
    countIn a W (l1 ++ l2) = countIn a W l1 + countIn a W l2 :=
  List.countP_append _ _ _

theorem countIn_le_length (a W : Nat) (l : List Nat) : countIn a W l ≤ l.length :=
  List.countP_le_length _

theorem countIn_eq_zero_of_ge (a W : Nat) (l : List Nat)
    (h : ∀ t ∈ l, a + W ≤ t) : countIn a W l = 0 := by
  unfold countIn
  rw [List.countP_eq_zero]
  intro t ht
  have := h t ht
  simp only [Bool.and_eq_true, decide_eq_true_eq, not_and]
  intro _
  omega

theorem countIn_eq_zero_of_lt (a W : Nat) (l : List Nat)
    (h : ∀ t ∈ l, t < a) : countIn a W l = 0 := by
  unfold countIn
  rw [List.countP_eq_zero]
  intro t ht
  have := h t ht
  simp only [Bool.and_eq_true, decide_eq_true_eq, not_and]
  omega

theorem countIn_before (N W : Nat) (ts : List Nat) (r c a : Nat)
    (hc : c ≤ N) (hok : okRL N W r c ts = true)
    (hsort : List.Sorted (· ≤ ·) (r :: ts)) (ha : a ≤ r) :
    countIn a W ts ≤ N - c := by
  obtain ⟨hwin, hrest⟩ := okRL_split N W ts r c hc hok
  have hsplit := splitWin_append W r ts
  have hcount : countIn a W ts =
      countIn a W (splitWin W r ts).1 + countIn a W (splitWin W r ts).2 := by
    conv_lhs => rw [← hsplit]
    exact countIn_append _ _ _ _
  have hwb : countIn a W (splitWin W r ts).1 ≤ N - c :=
    le_trans (countIn_le_length _ _ _) (by omega)
  have hsub : (splitWin W r ts).2.Sublist ts := by
    conv_rhs => rw [← hsplit]
    exact List.sublist_append_right _ _
  have hrb : countIn a W (splitWin W r ts).2 = 0 := by
    cases hre : (splitWin W r ts).2 with
    | nil => simp [countIn]
    | cons t1 rest' =>
      obtain ⟨_, hWt, _⟩ := hrest t1 rest' hre
      have ht1ts : t1 ∈ ts := by
        refine hsub.subset ?_
        rw [hre]
        simp
      have hrt1 : r ≤ t1 := List.rel_of_sorted_cons hsort t1 ht1ts
      have hsorted2 : List.Sorted (· ≤ ·) (t1 :: rest') := by
        rw [← hre]
        exact List.Pairwise.sublist hsub hsort.of_cons
      apply countIn_eq_zero_of_ge
      intro t ht
      have ht1t : t1 ≤ t := by
        rcases List.mem_cons.mp ht with he | hm
        · rw [he]
        · exact List.rel_of_sorted_cons hsorted2 t hm
      omega
  omega

theorem countIn_sliding (N W : Nat) :
    ∀ (n : Nat) (ts : List Nat), ts.length ≤ n →
      ∀ (r c : Nat), c ≤ N → okRL N W r c ts = true →
        List.Sorted (· ≤ ·) (r :: ts) →
        ∀ a, countIn a W ts ≤ 2 * N := by
  intro n
  induction n with
  | zero =>
    intro ts hlen r c hc hok hsort a
    have h0 : ts = [] := List.length_eq_zero.mp (Nat.le_zero.mp hlen)
    subst h0
    simp [countIn]
  | succ n ih =>
    intro ts hlen r c hc hok hsort a
    obtain ⟨hwin, hrest⟩ := okRL_split N W ts r c hc hok
    have hsplit := splitWin_append W r ts
    have hcount : countIn a W ts =
        countIn a W (splitWin W r ts).1 + countIn a W (splitWin W r ts).2 := by
      conv_lhs => rw [← hsplit]
      exact countIn_append _ _ _ _
    have hwb : countIn a W (splitWin W r ts).1 ≤ N :=
      le_trans (countIn_le_length _ _ _) (by omega)
    have hsub : (splitWin W r ts).2.Sublist ts := by
      conv_rhs => rw [← hsplit]
      exact List.sublist_append_right _ _
    cases hre : (splitWin W r ts).2 with
    | nil =>
      rw [hre] at hcount
      have hz : countIn a W ([] : List Nat) = 0 := by simp [countIn]
      omega
    | cons t1 rest' =>
      obtain ⟨hok1, hWt, hN1⟩ := hrest t1 rest' hre
      have ht1ts : t1 ∈ ts := by
        refine hsub.subset ?_
        rw [hre]
        simp
      have hrt1 : r ≤ t1 := List.rel_of_sorted_cons hsort t1 ht1ts
      have hsorted2 : List.Sorted (· ≤ ·) (t1 :: rest') := by
        rw [← hre]
        exact List.Pairwise.sublist hsub hsort.of_cons
      have hlen' : rest'.length ≤ n := by
        have he : (splitWin W r ts).1.length + (t1 :: rest').length = ts.length := by
          rw [← hre]
          rw [← List.length_append, hsplit]
        simp only [List.length_cons] at he
        omega
      have hsing : countIn a W (t1 :: rest') =
          countIn a W rest' +
            if (decide (a ≤ t1) && decide (t1 < a + W)) = true then 1 else 0 := by
        unfold countIn
        rw [List.countP_cons]
      rw [hcount, hre, hsing]
      rcases le_or_lt a t1 with ha | ha
      · have hb' : countIn a W rest' ≤ N - 1 :=
          countIn_before N W rest' t1 1 a hN1 hok1 hsorted2 ha
        have hif : (if (decide (a ≤ t1) && decide (t1 < a + W)) = true then 1 else 0) ≤ 1 := by
          split <;> omega
        omega
      · have hwz : countIn a W (splitWin W r ts).1 = 0 := by
          apply countIn_eq_zero_of_lt
          intro t ht
          have hnW : ¬ W ≤ t - r := splitWin_fst_lt W r ts t ht
          have htts : t ∈ ts := by
            have : t ∈ (splitWin W r ts).1 ++ (splitWin W r ts).2 :=
              List.mem_append_left _ ht
            rw [hsplit] at this
            exact this
          have hrt : r ≤ t := List.rel_of_sorted_cons hsort t htts
          omega
        have hif : (if (decide (a ≤ t1) && decide (t1 < a + W)) = true then 1 else 0) = 0 := by
          have : ¬ a ≤ t1 := by omega
          simp [this]
        have hb' : countIn a W rest' ≤ 2 * N :=
          ih rest' hlen' t1 1 hN1 hok1 hsorted2 a
        omega

/-- C1 amended: every time-ordered trace the fixed-window limiter admits
(cap 80 per 60-unit window, as configured in src/data.py) observes at most
2 × 80 calls in any sliding 60-length interval; the cap itself bounds each
limiter window, not sliding intervals, and 2 × 80 is attained. -/
theorem C1_sliding_twice_cap (ts : List Nat)
    (hsort : List.Sorted (· ≤ ·) (0 :: ts))
    (hok : okRL CALLS_PER_MINUTE ONE_MINUTE 0 0 ts = true) :
    ∀ a, countIn a ONE_MINUTE ts ≤ 2 * CALLS_PER_MINUTE :=
  fun a => countIn_sliding CALLS_PER_MINUTE ONE_MINUTE ts.length ts le_rfl 0 0
    (Nat.zero_le _) hok hsort a

theorem C1_witness :
    countIn 0 ONE_MINUTE [0, 30] ≤ 2 * CALLS_PER_MINUTE :=
  C1_sliding_twice_cap [0, 30] (by decide) (by decide) 0

end TDS
